import Mathlib

/-!
Verification of the distributed-engine master of pachi
(src/distributed/distributed.c) against its natural-language
specification.  The C code is shallowly embedded: the shared
coordination state (command log, reply buffer) becomes a Lean
structure, the blocking loops become functions over explicit lists of
wake-up observations, and C strings become lists of characters.
Machine integers are modelled as Int/Nat (no overflow is reachable for
the quantities involved), wall-clock times as rationals.
-/

/-! ## Character and decimal-digit utilities (models of ctype/stdio idioms) -/

/-- Model of isdigit for the ASCII digits used in gtp ids. -/
def isDig (c : Char) : Bool := 48 ≤ c.toNat && c.toNat ≤ 57

/-- The ASCII digit character of a value below ten. -/
def decDigit (n : Nat) : Char := Char.ofNat (48 + n)

/-- Accumulator form of decimal rendering, most significant digit
first; the first argument is fuel bounding the recursion depth. -/
def decReprCore : Nat → Nat → List Char → List Char
  | 0, _, acc => acc
  | fuel + 1, n, acc =>
    if n < 10 then decDigit n :: acc
    else decReprCore fuel (n / 10) (decDigit (n % 10) :: acc)

/-- Decimal rendering of a natural number; the model of printf %d. -/
def decRepr (n : Nat) : List Char := decReprCore (n + 1) n []

/-- Numeric value of a digit string, most significant digit first;
together with a leading-digit scan this models atoi on the log. -/
def digitVal (l : List Char) : Nat := l.foldl (fun a c => 10 * a + (c.toNat - 48)) 0

/-- Length of the leading digit run; the model of strspn(s, "0123456789"). -/
def digitSpan (l : List Char) : Nat := (l.takeWhile isDig).length

/-- Value of the leading digit run; the model of atoi on a digit-led string. -/
def atoiDigits (l : List Char) : Nat := digitVal (l.takeWhile isDig)

/-- Left-pad a digit string with zeros to a given width, then truncate
to that width: the model of snprintf "%0*d" followed by memcpy of
exactly the field width. -/
def padTrunc (w : Nat) (ds : List Char) : List Char :=
  (List.replicate (w - ds.length) (decDigit 0) ++ ds).take w

/-- Model of tolower for the ASCII comparisons of strcasecmp. -/
def lowerc (c : Char) : Char := c.toLower

/-- Model of strcasecmp returning equality only. -/
def strcaseEq (a b : List Char) : Bool := a.map lowerc == b.map lowerc

/-- Model of strncasecmp returning equality only.  When one string is
shorter than the count, its terminating NUL mismatches the other
string's character, which the take-based comparison reproduces. -/
def strncaseEq (n : Nat) (a b : List Char) : Bool :=
  (a.take n).map lowerc == (b.take n).map lowerc

/-- Whether pat occurs contiguously inside l (model of strstr ≠ NULL). -/
def containsSub (pat l : List Char) : Bool := l.tails.any (fun t => pat.isPrefixOf t)

/-! ## await_quorum / get_replies (distributed.c lines 299-322)

The C function blocks on a condition variable inside a loop, rereading
the shared reply_count and active_slaves on each wake-up.  The
embedding makes the wake-ups explicit: an Obs records the shared state
and the wall clock observed after one wake (a signal, a timeout of
pthread_cond_timedwait, or a spurious wake — pthreads allows all
three), and get_replies consumes a list of such observations.  The
result is none while the call is still blocked (the observation list
ran out), or some (final effective time limit, observation at return).
-/

/-- One observation of the shared state on waking inside get_replies. -/
structure Obs where
  reply_count : Nat
  active_slaves : Nat
  now : ℚ
deriving DecidableEq, Repr

/-- EXTRA_TIME from distributed.c: the 0.5 s straggler grace period. -/
def EXTRA_TIME : ℚ := 1/2

/-- Embedding of get_replies.  time_limit = 0 means no deadline, as in
the C code where the double is tested for truth.  Each iteration of
the C while loop consumes one observation; the branches mirror the
source line by line: continue when reply_count is 0, break (return)
when reply_count reached active_slaves, break when a non-zero deadline
has passed, lower the deadline to now + EXTRA_TIME once half the
active slaves have replied, otherwise keep waiting. -/
def get_replies : ℚ → Obs → List Obs → Option (ℚ × Obs)
  | time_limit, cur, wakes =>
    if cur.reply_count = 0 ∨ cur.reply_count < cur.active_slaves then
      match wakes with
      | [] => none
      | w :: rest =>
        if w.reply_count = 0 then get_replies time_limit w rest
        else if w.active_slaves ≤ w.reply_count then some (time_limit, w)
        else if time_limit ≠ 0 ∧ time_limit ≤ w.now then some (time_limit, w)
        else if w.active_slaves / 2 ≤ w.reply_count ∧
                (time_limit = 0 ∨ w.now + EXTRA_TIME < time_limit) then
          get_replies (w.now + EXTRA_TIME) w rest
        else get_replies time_limit w rest
    else some (time_limit, cur)

theorem get_replies_nil (tl : ℚ) (cur : Obs)
    (h : cur.reply_count = 0 ∨ cur.reply_count < cur.active_slaves) :
    get_replies tl cur [] = none := by
  unfold get_replies
  simp [h]

theorem get_replies_cons (tl : ℚ) (cur w : Obs) (rest : List Obs)
    (h : cur.reply_count = 0 ∨ cur.reply_count < cur.active_slaves) :
    get_replies tl cur (w :: rest) =
      if w.reply_count = 0 then get_replies tl w rest
      else if w.active_slaves ≤ w.reply_count then some (tl, w)
      else if tl ≠ 0 ∧ tl ≤ w.now then some (tl, w)
      else if w.active_slaves / 2 ≤ w.reply_count ∧
              (tl = 0 ∨ w.now + EXTRA_TIME < tl) then
        get_replies (w.now + EXTRA_TIME) w rest
      else get_replies tl w rest := by
  conv_lhs => unfold get_replies
  simp [h]

theorem get_replies_exit (tl : ℚ) (cur : Obs) (wakes : List Obs)
    (h : ¬ (cur.reply_count = 0 ∨ cur.reply_count < cur.active_slaves)) :
    get_replies tl cur wakes = some (tl, cur) := by
  unfold get_replies
  simp only [h, if_false]

/-- **C1**: get_replies never returns while reply_count = 0.  Whenever
the call returns (result some), the observation at the point of return
has reply_count at least 1; and as long as every wake-up still
observes reply_count = 0 — no matter the deadline or the active-slave
count, including zero slaves — the call stays blocked (result none). -/
theorem c1_get_replies_nonempty (tl : ℚ) (cur : Obs) (wakes : List Obs) :
    (∀ r, get_replies tl cur wakes = some r → 1 ≤ r.2.reply_count) ∧
    (cur.reply_count = 0 → (∀ w ∈ wakes, w.reply_count = 0) →
      get_replies tl cur wakes = none) := by
  induction wakes generalizing tl cur with
  | nil =>
    constructor
    · intro r hr
      by_cases h : cur.reply_count = 0 ∨ cur.reply_count < cur.active_slaves
      · rw [get_replies_nil tl cur h] at hr; exact absurd hr (by simp)
      · rw [get_replies_exit tl cur [] h] at hr
        have hc : ¬ cur.reply_count = 0 := fun h0 => h (Or.inl h0)
        obtain rfl : (tl, cur) = r := Option.some.inj hr
        show 1 ≤ cur.reply_count
        omega
    · intro h0 _
      exact get_replies_nil tl cur (Or.inl h0)
  | cons w rest ih =>
    constructor
    · intro r hr
      by_cases h : cur.reply_count = 0 ∨ cur.reply_count < cur.active_slaves
      · rw [get_replies_cons tl cur w rest h] at hr
        by_cases hw0 : w.reply_count = 0
        · rw [if_pos hw0] at hr
          exact (ih tl w).1 r hr
        · rw [if_neg hw0] at hr
          by_cases hwa : w.active_slaves ≤ w.reply_count
          · rw [if_pos hwa] at hr
            obtain rfl : (tl, w) = r := Option.some.inj hr
            show 1 ≤ w.reply_count
            omega
          · rw [if_neg hwa] at hr
            by_cases hdl : tl ≠ 0 ∧ tl ≤ w.now
            · rw [if_pos hdl] at hr
              obtain rfl : (tl, w) = r := Option.some.inj hr
              show 1 ≤ w.reply_count
              omega
            · rw [if_neg hdl] at hr
              by_cases hg : w.active_slaves / 2 ≤ w.reply_count ∧
                  (tl = 0 ∨ w.now + EXTRA_TIME < tl)
              · rw [if_pos hg] at hr
                exact (ih (w.now + EXTRA_TIME) w).1 r hr
              · rw [if_neg hg] at hr
                exact (ih tl w).1 r hr
      · rw [get_replies_exit tl cur (w :: rest) h] at hr
        have hc : ¬ cur.reply_count = 0 := fun hz => h (Or.inl hz)
        obtain rfl : (tl, cur) = r := Option.some.inj hr
        show 1 ≤ cur.reply_count
        omega
    · intro h0 hall
      have hw0 : w.reply_count = 0 := hall w (by simp)
      rw [get_replies_cons tl cur w rest (Or.inl h0), if_pos hw0]
      exact (ih tl w).2 hw0 (fun x hx => hall x (by simp [hx]))

/-- Witness for C1: a concrete blocked run (single zero-count wake)
stays blocked, and a concrete returning run returns with one reply. -/
theorem c1_witness :
    get_replies 0 ⟨0, 3, 0⟩ [⟨0, 3, 1⟩] = none ∧
    (1 : Nat) ≤ ((7, (⟨1, 1, 2⟩ : Obs)) : ℚ × Obs).2.reply_count := by
  constructor
  · exact (c1_get_replies_nonempty 0 ⟨0, 3, 0⟩ [⟨0, 3, 1⟩]).2 rfl (by decide)
  · exact (c1_get_replies_nonempty 7 ⟨1, 1, 2⟩ []).1 (7, ⟨1, 1, 2⟩)
      (get_replies_exit 7 ⟨1, 1, 2⟩ [] (by simp))

/-- **C4 counterexample**: entered with deadline 0 and with the wake-up
observing exactly half of the active slaves replied (2 of 4), the code
does apply the grace period: it lowers the effective deadline to
now + 0.5 s (here 1 + 1/2) and returns at the next wake once that
deadline has passed, still with 2 replies — it does not keep waiting. -/
theorem c4_counterexample :
    get_replies 0 ⟨0, 0, 0⟩ [⟨2, 4, 1⟩, ⟨2, 4, 3/2⟩]
      = some (3/2, ⟨2, 4, 3/2⟩) ∧ (2 : Nat) = 4 / 2 := by
  constructor
  · rw [get_replies_cons 0 ⟨0, 0, 0⟩ ⟨2, 4, 1⟩ [⟨2, 4, 3/2⟩] (Or.inl rfl)]
    norm_num [EXTRA_TIME]
    rw [get_replies_cons (3/2) ⟨2, 4, 1⟩ ⟨2, 4, 3/2⟩ [] (Or.inr (by norm_num))]
    norm_num
  · rfl

/-- **C4 amended**: if get_replies is entered with deadline 0 and a
wake-up observes at least half (in particular exactly half) of the
active slaves replied, with at least one reply but fewer than all, the
0.5 s grace period does apply: the effective deadline is lowered to
now + 0.5 s, and the call returns at the next wake-up whose clock has
passed that deadline even if no further reply arrived. -/
theorem c4_grace_applies_at_half (cur w w' : Obs) (rest : List Obs)
    (hcur : cur.reply_count = 0 ∨ cur.reply_count < cur.active_slaves)
    (h1 : w.reply_count ≠ 0) (h2 : w.reply_count < w.active_slaves)
    (h3 : w.active_slaves / 2 ≤ w.reply_count) (h4 : 0 ≤ w.now)
    (h5 : w'.reply_count ≠ 0) (h6 : w.now + EXTRA_TIME ≤ w'.now) :
    get_replies 0 cur (w :: w' :: rest) = some (w.now + EXTRA_TIME, w') := by
  have hne : w.now + EXTRA_TIME ≠ 0 := by
    have : (0 : ℚ) < EXTRA_TIME := by norm_num [EXTRA_TIME]
    intro h; nlinarith
  rw [get_replies_cons 0 cur w (w' :: rest) hcur]
  rw [if_neg h1, if_neg (by omega), if_neg (by simp), if_pos ⟨h3, Or.inl rfl⟩]
  rw [get_replies_cons (w.now + EXTRA_TIME) w w' rest (Or.inr h2)]
  rw [if_neg h5]
  by_cases hq : w'.active_slaves ≤ w'.reply_count
  · rw [if_pos hq]
  · rw [if_neg hq, if_pos ⟨hne, h6⟩]

/-- Witness for C4 amended: the concrete 2-of-4, deadline-0 scenario. -/
theorem c4_witness :
    get_replies 0 ⟨0, 0, 0⟩ [⟨2, 4, 1⟩, ⟨2, 4, 2⟩] = some (1 + EXTRA_TIME, ⟨2, 4, 2⟩) :=
  c4_grace_applies_at_half ⟨0, 0, 0⟩ ⟨2, 4, 1⟩ ⟨2, 4, 2⟩ []
    (Or.inl rfl) (by decide) (by decide) (by decide) (by norm_num)
    (by decide) (by norm_num [EXTRA_TIME])

/-! ## Aggregator: select_best_move (distributed.c lines 386-425)

The C function scans the reply strings with sscanf.  The embedding
works on replies after line framing: the header field is some value
exactly when sscanf(r, "=%d %d %d", ...) returned 3, and each data
line is some parsed record exactly when sscanf(++r, "%63s %d %f", ...)
returned 3.  Board coordinates (the result of the external str2coord)
are integers, with pass = -1 as in the board module; the two extra
accumulator slots of the C array correspond to the negative indices.
-/

/-- Per-move statistics (struct move_stats): playout count and
playout-weighted mean value, kept exact as a rational. -/
structure MStats where
  playouts : Int
  value : ℚ
deriving DecidableEq, Repr

/-- Modelled from the spec: stats_add_result (stats.h is not under
src/) merges a sample set into an accumulator by playout-weighted
averaging: new_value = (old_value*old_n + value*n) / (old_n + n) and
new_n = old_n + n. -/
def stats_add_result (s : MStats) (value : ℚ) (n : Int) : MStats :=
  ⟨s.playouts + n, (s.value * s.playouts + value * n) / ((s.playouts : ℚ) + n)⟩

/-- One successfully parsed data line "coord playouts value". -/
structure RLine where
  coord : Int
  playouts : Int
  value : ℚ
deriving DecidableEq, Repr

/-- One reply after line framing: header (id, total_playouts, threads)
when it parsed, and the body lines, each some record when it parsed. -/
structure Reply where
  header : Option (Int × Int × Int)
  lines : List (Option RLine)
deriving DecidableEq, Repr

/-- The pass coordinate of the board module. -/
def pass : Int := -1

/-- The data lines actually consumed by the reply-body while loop,
which stops at the first line whose parse fails. -/
def parsedRun : List (Option RLine) → List RLine
  | some d :: rest => d :: parsedRun rest
  | _ => []

/-- State of the select_best_move scan: the per-coordinate accumulator
array, the running best move and its playout count, and the header
totals. -/
structure SelSt where
  stats : Int → MStats
  best_move : Int
  best_playouts : Int
  total_playouts : Int
  total_threads : Int

/-- The zeroed accumulator array (memset to 0). -/
def initStats : Int → MStats := fun _ => ⟨0, 0⟩

/-- Initial scan state: best_move = pass, best_playouts = -1,
totals 0, accumulators zeroed. -/
def initSel : SelSt := ⟨initStats, pass, -1, 0, 0⟩

/-- Pointwise update of the accumulator array. -/
def updStats (st : Int → MStats) (c : Int) (v : MStats) : Int → MStats :=
  fun x => if x = c then v else st x

/-- Merging one data line into the accumulator array:
stats_add_result(&stats[*c], s.value, s.playouts). -/
def statsUpd (st : Int → MStats) (d : RLine) : Int → MStats :=
  updStats st d.coord (stats_add_result (st d.coord) d.value d.playouts)

/-- Body of the data-line while loop: merge the sample, then take the
coordinate as new best if its accumulated playouts now exceed the
running best. -/
def stepLine (s : SelSt) (d : RLine) : SelSt :=
  let st := statsUpd s.stats d
  if s.best_playouts < (st d.coord).playouts then
    { s with stats := st, best_move := d.coord, best_playouts := (st d.coord).playouts }
  else { s with stats := st }

/-- Body of the outer reply loop: a reply whose header does not parse
is skipped entirely; otherwise its header counts are added to the
totals and its consumed data lines are folded in. -/
def stepReply (s : SelSt) (r : Reply) : SelSt :=
  match r.header with
  | none => s
  | some (_, playouts, threads) =>
    (parsedRun r.lines).foldl stepLine
      { s with total_playouts := s.total_playouts + playouts,
               total_threads := s.total_threads + threads }

/-- Embedding of select_best_move.  The returned best_stats of the C
function is stats applied to best_move. -/
def select_best_move (replies : List Reply) : SelSt :=
  replies.foldl stepReply initSel

/-- Sum of the header playout counts over the replies whose header
parsed. -/
def headerPlayouts : List Reply → Int
  | [] => 0
  | r :: rest =>
    (match r.header with | none => 0 | some (_, p, _) => p) + headerPlayouts rest

/-- Sum of the header thread counts over the replies whose header
parsed. -/
def headerThreads : List Reply → Int
  | [] => 0
  | r :: rest =>
    (match r.header with | none => 0 | some (_, _, t) => t) + headerThreads rest

theorem parsedRun_all_none (ls : List (Option RLine)) (h : ∀ l ∈ ls, l = none) :
    parsedRun ls = [] := by
  cases ls with
  | nil => rfl
  | cons l rest =>
    have : l = none := h l (by simp)
    subst this
    rfl

theorem parsedRun_stops (pre post : List (Option RLine))
    (h : ∀ l ∈ pre, l.isSome) :
    parsedRun (pre ++ none :: post) = parsedRun pre := by
  induction pre with
  | nil => rfl
  | cons l rest ih =>
    match l, h l (by simp) with
    | some d, _ =>
      simp only [List.cons_append, parsedRun]
      exact congrArg (fun ls => d :: ls) (ih (fun x hx => h x (by simp [hx])))

theorem c10_aux (replies : List Reply) (s : SelSt)
    (h : ∀ r ∈ replies, r.header = none ∨ ∀ l ∈ r.lines, l = none) :
    replies.foldl stepReply s =
      { s with total_playouts := s.total_playouts + headerPlayouts replies,
               total_threads := s.total_threads + headerThreads replies } := by
  induction replies generalizing s with
  | nil => simp [headerPlayouts, headerThreads]
  | cons r rest ih =>
    rcases h r (by simp) with hh | hl
    · rw [List.foldl_cons]
      have hs : stepReply s r = s := by simp [stepReply, hh]
      rw [hs, ih s (fun x hx => h x (by simp [hx]))]
      simp [headerPlayouts, headerThreads, hh]
    · rw [List.foldl_cons]
      match hr : r.header with
      | none =>
        have hs : stepReply s r = s := by simp [stepReply, hr]
        rw [hs, ih s (fun x hx => h x (by simp [hx]))]
        simp [headerPlayouts, headerThreads, hr]
      | some (i, p, t) =>
        have hs : stepReply s r =
            { s with total_playouts := s.total_playouts + p,
                     total_threads := s.total_threads + t } := by
          simp [stepReply, hr, parsedRun_all_none r.lines hl]
        rw [hs, ih _ (fun x hx => h x (by simp [hx]))]
        simp [headerPlayouts, headerThreads, hr, add_assoc]

/-- **C10**: when no reply contributes a parseable data line (every
header malformed, or every reply body empty or opening with an
unparseable line), select_best_move returns pass, its best-move
statistics are the zero-initialized accumulator, and the returned
totals are the sums over exactly the replies whose headers parsed. -/
theorem c10_empty_select (replies : List Reply)
    (h : ∀ r ∈ replies, r.header = none ∨ ∀ l ∈ r.lines, l = none) :
    (select_best_move replies).best_move = pass ∧
    (select_best_move replies).stats (select_best_move replies).best_move = ⟨0, 0⟩ ∧
    (select_best_move replies).total_playouts = headerPlayouts replies ∧
    (select_best_move replies).total_threads = headerThreads replies := by
  unfold select_best_move
  rw [c10_aux replies initSel h]
  refine ⟨rfl, rfl, ?_, ?_⟩ <;> simp [initSel]

/-- Reply list for the C10 witness: a malformed header carrying
(skipped) data lines, a parsed header with an empty body, a parsed
header whose body opens with an unparseable line. -/
def c10demo : List Reply :=
  [⟨none, [some ⟨3, 50, 1/2⟩]⟩, ⟨some (7, 100, 2), []⟩, ⟨some (9, 30, 1), [none]⟩]

/-- Witness for C10 at the concrete reply list c10demo. -/
theorem c10_witness :
    (select_best_move c10demo).best_move = pass ∧
    (select_best_move c10demo).stats (select_best_move c10demo).best_move = ⟨0, 0⟩ ∧
    (select_best_move c10demo).total_playouts = 130 ∧
    (select_best_move c10demo).total_threads = 3 := by
  have h := c10_empty_select c10demo (by decide)
  refine ⟨h.1, h.2.1, ?_, ?_⟩
  · rw [h.2.2.1]; rfl
  · rw [h.2.2.2]; rfl

/-- **C9 counterexample**: a reply with a well-formed header whose
body is an unparseable line followed by a parseable one.  The claim
says the parseable line is still processed; the code exits the body
loop at the first failure, so the line contributes nothing and the
selected move stays pass — while the same reply without the bad line
does select that coordinate. -/
theorem c9_counterexample :
    (select_best_move [⟨some (1, 100, 2), [none, some ⟨3, 50, 1/2⟩]⟩]).best_move = pass ∧
    ((select_best_move [⟨some (1, 100, 2), [none, some ⟨3, 50, 1/2⟩]⟩]).stats 3).playouts = 0 ∧
    (select_best_move [⟨some (1, 100, 2), [some ⟨3, 50, 1/2⟩]⟩]).best_move = 3 := by
  refine ⟨rfl, rfl, ?_⟩
  decide

/-- **C9 amended**: a reply whose header does not parse contributes
nothing at all to the scan (the result over any reply list is
unchanged by removing it); and a data line that fails to parse
terminates the processing of that reply — the remaining lines of the
same reply are skipped even when parseable. -/
theorem c9_parse_failures :
    (∀ (body : List (Option RLine)) (rest : List Reply),
      select_best_move (⟨none, body⟩ :: rest) = select_best_move rest) ∧
    (∀ (hd : Option (Int × Int × Int)) (pre post : List (Option RLine)) (rest : List Reply),
      (∀ l ∈ pre, l.isSome) →
      select_best_move (⟨hd, pre ++ none :: post⟩ :: rest)
        = select_best_move (⟨hd, pre⟩ :: rest)) := by
  constructor
  · intro body rest
    simp [select_best_move, stepReply]
  · intro hd pre post rest h
    unfold select_best_move
    rw [List.foldl_cons, List.foldl_cons]
    match hd with
    | none => rfl
    | some (i, p, t) =>
      simp only [stepReply]
      rw [parsedRun_stops pre post h]

/-- Witness for C9 amended: concrete malformed-header and
interrupted-body replies. -/
theorem c9_witness :
    select_best_move [⟨(none : Option (Int × Int × Int)), [some ⟨3, 50, 1/2⟩]⟩]
        = select_best_move ([] : List Reply) ∧
    select_best_move [⟨some ((1 : Int), (100 : Int), (2 : Int)),
        [some ⟨4, 10, 1/2⟩] ++ none :: [some ⟨3, 50, 1/2⟩]⟩]
      = select_best_move [⟨some ((1 : Int), (100 : Int), (2 : Int)), [some ⟨4, 10, 1/2⟩]⟩] :=
  ⟨c9_parse_failures.1 [some ⟨3, 50, 1/2⟩] [],
   c9_parse_failures.2 (some (1, 100, 2)) [some ⟨4, 10, 1/2⟩] [some ⟨3, 50, 1/2⟩] []
     (by decide)⟩

/-- **C2 counterexample**: with a (syntactically well-formed) data
line carrying a negative playout count, the running-maximum tracking
of select_best_move picks a coordinate whose final aggregate playout
count is not maximal: coordinate 0 peaks at 5, drops back to 1, and
coordinate 1 finishes at 3, yet coordinate 0 is selected. -/
theorem c2_counterexample :
    (select_best_move [⟨some (1, 10, 1),
        [some ⟨0, 5, 1/2⟩, some ⟨0, -4, 1/2⟩, some ⟨1, 3, 1/2⟩]⟩]).best_move = 0 ∧
    ((select_best_move [⟨some (1, 10, 1),
        [some ⟨0, 5, 1/2⟩, some ⟨0, -4, 1/2⟩, some ⟨1, 3, 1/2⟩]⟩]).stats
      (select_best_move [⟨some (1, 10, 1),
        [some ⟨0, 5, 1/2⟩, some ⟨0, -4, 1/2⟩, some ⟨1, 3, 1/2⟩]⟩]).best_move).playouts
    < ((select_best_move [⟨some (1, 10, 1),
        [some ⟨0, 5, 1/2⟩, some ⟨0, -4, 1/2⟩, some ⟨1, 3, 1/2⟩]⟩]).stats 1).playouts := by
  constructor <;> decide

/-! ## The running-best scan, flattened

select_best_move tracks the best move incrementally while merging.
To reason about it, the scan is re-expressed as a fold of a core step
over the flattened list of processed data lines; the header totals are
carried separately and do not influence the core. -/

/-- The accumulator/best part of the scan state as a triple
(stats, best_move, best_playouts), stepped exactly like stepLine. -/
def coreStep (t : (Int → MStats) × Int × Int) (d : RLine) : (Int → MStats) × Int × Int :=
  let st := statsUpd t.1 d
  if t.2.2 < (st d.coord).playouts then (st, d.coord, (st d.coord).playouts)
  else (st, t.2.1, t.2.2)

/-- Initial core state: zeroed accumulators, best_move = pass,
best_playouts = -1. -/
def initCore : (Int → MStats) × Int × Int := (initStats, pass, -1)

/-- The data lines select_best_move actually processes, in order. -/
def updates : List Reply → List RLine
  | [] => []
  | r :: rest =>
    (match r.header with | none => [] | some _ => parsedRun r.lines) ++ updates rest

/-- First coordinate of the update sequence whose accumulated playout
count reaches the target, replaying the accumulator from st: the
specification's "first coordinate seen to reach the maximum". -/
def firstToReachFrom (st : Int → MStats) (target : Int) : List RLine → Option Int
  | [] => none
  | u :: rest =>
    if ((statsUpd st u) u.coord).playouts = target then some u.coord
    else firstToReachFrom (statsUpd st u) target rest

/-- Total playout count contributed to a coordinate by a list of data
lines. -/
def aggPl : List RLine → Int → Int
  | [], _ => 0
  | u :: rest, c => (if u.coord = c then u.playouts else 0) + aggPl rest c

theorem statsUpd_coord (st : Int → MStats) (d : RLine) :
    ((statsUpd st d) d.coord).playouts = (st d.coord).playouts + d.playouts := by
  simp [statsUpd, updStats, stats_add_result]

theorem statsUpd_other (st : Int → MStats) (d : RLine) (x : Int) (h : x ≠ d.coord) :
    (statsUpd st d) x = st x := by
  simp [statsUpd, updStats, h]

theorem stepLine_core (s : SelSt) (d : RLine) :
    (stepLine s d).stats = (coreStep (s.stats, s.best_move, s.best_playouts) d).1 ∧
    (stepLine s d).best_move = (coreStep (s.stats, s.best_move, s.best_playouts) d).2.1 ∧
    (stepLine s d).best_playouts = (coreStep (s.stats, s.best_move, s.best_playouts) d).2.2 ∧
    (stepLine s d).total_playouts = s.total_playouts ∧
    (stepLine s d).total_threads = s.total_threads := by
  by_cases h : s.best_playouts < ((statsUpd s.stats d) d.coord).playouts <;>
    simp [stepLine, coreStep, h]

theorem stepLine_core_triple (s : SelSt) (d : RLine) :
    ((stepLine s d).stats, (stepLine s d).best_move, (stepLine s d).best_playouts)
      = coreStep (s.stats, s.best_move, s.best_playouts) d := by
  obtain ⟨h1, h2, h3, _, _⟩ := stepLine_core s d
  rw [h1, h2, h3]

theorem foldl_stepLine_core (ls : List RLine) (s : SelSt) :
    (ls.foldl stepLine s).stats
        = (ls.foldl coreStep (s.stats, s.best_move, s.best_playouts)).1 ∧
    (ls.foldl stepLine s).best_move
        = (ls.foldl coreStep (s.stats, s.best_move, s.best_playouts)).2.1 ∧
    (ls.foldl stepLine s).best_playouts
        = (ls.foldl coreStep (s.stats, s.best_move, s.best_playouts)).2.2 := by
  induction ls generalizing s with
  | nil => exact ⟨rfl, rfl, rfl⟩
  | cons d rest ih =>
    simp only [List.foldl_cons]
    obtain ⟨e1, e2, e3⟩ := ih (stepLine s d)
    rw [e1, e2, e3, stepLine_core_triple]
    exact ⟨rfl, rfl, rfl⟩

theorem foldl_stepReply_core (rs : List Reply) (s : SelSt) :
    (rs.foldl stepReply s).stats
        = ((updates rs).foldl coreStep (s.stats, s.best_move, s.best_playouts)).1 ∧
    (rs.foldl stepReply s).best_move
        = ((updates rs).foldl coreStep (s.stats, s.best_move, s.best_playouts)).2.1 ∧
    (rs.foldl stepReply s).best_playouts
        = ((updates rs).foldl coreStep (s.stats, s.best_move, s.best_playouts)).2.2 := by
  induction rs generalizing s with
  | nil => exact ⟨rfl, rfl, rfl⟩
  | cons r rest ih =>
    simp only [List.foldl_cons, updates, List.foldl_append]
    match hr : r.header with
    | none =>
      have hs : stepReply s r = s := by simp [stepReply, hr]
      rw [hs]
      exact ih s
    | some (i, p, t) =>
      simp only [stepReply, hr]
      obtain ⟨e1, e2, e3⟩ := ih ((parsedRun r.lines).foldl stepLine
        { s with total_playouts := s.total_playouts + p,
                 total_threads := s.total_threads + t })
      rw [e1, e2, e3]
      obtain ⟨f1, f2, f3⟩ := foldl_stepLine_core (parsedRun r.lines)
        { s with total_playouts := s.total_playouts + p,
                 total_threads := s.total_threads + t }
      rw [f1, f2, f3]
      exact ⟨rfl, rfl, rfl⟩

theorem select_core (replies : List Reply) :
    (select_best_move replies).stats = ((updates replies).foldl coreStep initCore).1 ∧
    (select_best_move replies).best_move = ((updates replies).foldl coreStep initCore).2.1 ∧
    (select_best_move replies).best_playouts
      = ((updates replies).foldl coreStep initCore).2.2 :=
  foldl_stepReply_core replies initSel

theorem coreStep_stats (t : (Int → MStats) × Int × Int) (u : RLine) :
    (coreStep t u).1 = statsUpd t.1 u := by
  by_cases h : t.2.2 < ((statsUpd t.1 u) u.coord).playouts <;> simp [coreStep, h]

theorem foldl_coreStep_stats (us : List RLine) (t : (Int → MStats) × Int × Int) :
    (us.foldl coreStep t).1 = us.foldl statsUpd t.1 := by
  induction us generalizing t with
  | nil => rfl
  | cons u rest ih =>
    simp only [List.foldl_cons]
    rw [ih, coreStep_stats]

theorem foldl_statsUpd_playouts (us : List RLine) (st : Int → MStats) (c : Int) :
    ((us.foldl statsUpd st) c).playouts = (st c).playouts + aggPl us c := by
  induction us generalizing st with
  | nil => simp [aggPl]
  | cons u rest ih =>
    simp only [List.foldl_cons, aggPl]
    rw [ih]
    by_cases h : c = u.coord
    · subst h
      rw [statsUpd_coord, if_pos rfl]
      ring
    · rw [statsUpd_other st u c h, if_neg (fun he => h he.symm)]
      ring

theorem aggPl_eq_sum (us : List RLine) (c : Int) :
    aggPl us c = (us.map (fun u => if u.coord = c then u.playouts else 0)).sum := by
  induction us with
  | nil => rfl
  | cons u rest ih => simp [aggPl, ih]

theorem aggPl_perm {us vs : List RLine} (h : us.Perm vs) (c : Int) :
    aggPl us c = aggPl vs c := by
  rw [aggPl_eq_sum, aggPl_eq_sum]
  exact (h.map _).sum_eq

theorem updates_eq_flatMap (rs : List Reply) :
    updates rs = rs.flatMap
      (fun r => match r.header with | none => [] | some _ => parsedRun r.lines) := by
  induction rs with
  | nil => rfl
  | cons r rest ih => simp [updates, ih]

theorem updates_perm {rs rsp : List Reply} (h : rsp.Perm rs) :
    (updates rsp).Perm (updates rs) := by
  rw [updates_eq_flatMap, updates_eq_flatMap]
  exact h.flatMap_right _

theorem mem_parsedRun {d : RLine} :
    ∀ {ls : List (Option RLine)}, d ∈ parsedRun ls → some d ∈ ls := by
  intro ls
  induction ls with
  | nil => intro h; exact absurd h (by simp [parsedRun])
  | cons l rest ih =>
    match l with
    | none => intro h; exact absurd h (by simp [parsedRun])
    | some e =>
      intro h
      rcases (List.mem_cons).1 h with he | hm
      · subst he; exact List.mem_cons_self _ _
      · exact List.mem_cons_of_mem _ (ih hm)

theorem mem_updates {u : RLine} :
    ∀ {rs : List Reply}, u ∈ updates rs → ∃ r ∈ rs, some u ∈ r.lines := by
  intro rs
  induction rs with
  | nil => intro h; exact absurd h (by simp [updates])
  | cons r rest ih =>
    intro h
    rcases List.mem_append.1 h with hl | hr
    · refine ⟨r, List.mem_cons_self _ _, ?_⟩
      match hh : r.header with
      | none => rw [hh] at hl; exact absurd hl (by simp)
      | some _ => rw [hh] at hl; exact mem_parsedRun hl
    · obtain ⟨x, hx, hm⟩ := ih hr
      exact ⟨x, List.mem_cons_of_mem _ hx, hm⟩

theorem firstToReachFrom_append_none (st : Int → MStats) (target : Int)
    (us vs : List RLine) (h : firstToReachFrom st target us = none) :
    firstToReachFrom st target (us ++ vs)
      = firstToReachFrom (us.foldl statsUpd st) target vs := by
  induction us generalizing st with
  | nil => rfl
  | cons u rest ih =>
    simp only [firstToReachFrom] at h
    by_cases hc : ((statsUpd st u) u.coord).playouts = target
    · rw [if_pos hc] at h; exact absurd h (by simp)
    · rw [if_neg hc] at h
      simp only [List.cons_append, firstToReachFrom, List.foldl_cons]
      rw [if_neg hc]
      exact ih (statsUpd st u) h

theorem firstToReachFrom_append_some (st : Int → MStats) (target : Int)
    (us vs : List RLine) (c : Int) (h : firstToReachFrom st target us = some c) :
    firstToReachFrom st target (us ++ vs) = some c := by
  induction us generalizing st with
  | nil => exact absurd h (by simp [firstToReachFrom])
  | cons u rest ih =>
    simp only [firstToReachFrom] at h
    by_cases hc : ((statsUpd st u) u.coord).playouts = target
    · rw [if_pos hc] at h
      simp only [List.cons_append, firstToReachFrom]
      rw [if_pos hc]
      exact h
    · rw [if_neg hc] at h
      simp only [List.cons_append, firstToReachFrom]
      rw [if_neg hc]
      exact ih (statsUpd st u) h

/-- Joint invariant of the running-best scan after processing the
update list us, for nonnegative playout counts: accumulated counts are
nonnegative and bounded by the running best; best_playouts is -1 only
before the first update (best_move still pass); once nonnegative it is
realized by best_move, which is the first coordinate to have reached
it; no accumulated count ever reached past it; and the accumulator
array is the fold of the merges. -/
def CoreInv (us : List RLine) (t : (Int → MStats) × Int × Int) : Prop :=
  (∀ c, 0 ≤ (t.1 c).playouts) ∧
  (∀ c, (t.1 c).playouts ≤ max t.2.2 0) ∧
  (t.2.2 = -1 ∨ 0 ≤ t.2.2) ∧
  (t.2.2 = -1 → us = [] ∧ t.2.1 = pass) ∧
  (0 ≤ t.2.2 → (t.1 t.2.1).playouts = t.2.2 ∧
      firstToReachFrom initStats t.2.2 us = some t.2.1) ∧
  (∀ target : Int, max t.2.2 0 < target → firstToReachFrom initStats target us = none) ∧
  t.1 = us.foldl statsUpd initStats

theorem coreInv_step (us : List RLine) (t : (Int → MStats) × Int × Int) (u : RLine)
    (hn : 0 ≤ u.playouts) (h : CoreInv us t) : CoreInv (us ++ [u]) (coreStep t u) := by
  obtain ⟨H1, H2, H0, H3, H5, H6, H8⟩ := h
  have hsnap : ((statsUpd t.1 u) u.coord).playouts = (t.1 u.coord).playouts + u.playouts :=
    statsUpd_coord t.1 u
  have hs0 : 0 ≤ ((statsUpd t.1 u) u.coord).playouts := by
    have := H1 u.coord; omega
  have hfold : statsUpd t.1 u = (us ++ [u]).foldl statsUpd initStats := by
    rw [List.foldl_append, ← H8]
    rfl
  have hH1 : ∀ c, 0 ≤ ((statsUpd t.1 u) c).playouts := by
    intro c
    by_cases hcu : c = u.coord
    · subst hcu; exact hs0
    · rw [statsUpd_other t.1 u c hcu]; exact H1 c
  by_cases hif : t.2.2 < ((statsUpd t.1 u) u.coord).playouts
  · have hc : coreStep t u
        = (statsUpd t.1 u, u.coord, ((statsUpd t.1 u) u.coord).playouts) := by
      simp [coreStep, hif]
    rw [hc]
    have hnone : ∀ target : Int, ((statsUpd t.1 u) u.coord).playouts ≤ target →
        firstToReachFrom initStats target us = none := by
      intro target htg
      rcases H0 with hbp | hbp
      · obtain ⟨hus, _⟩ := H3 hbp
        rw [hus]
        rfl
      · exact H6 target (by omega)
    refine ⟨hH1, ?_, Or.inr hs0, ?_, ?_, ?_, hfold⟩ <;> dsimp only
    · intro c
      by_cases hcu : c = u.coord
      · subst hcu
        omega
      · rw [statsUpd_other t.1 u c hcu]
        have := H2 c
        omega
    · intro habs
      omega
    · intro _
      refine ⟨rfl, ?_⟩
      rw [firstToReachFrom_append_none _ _ _ _ (hnone _ (le_refl _)), ← H8]
      simp [firstToReachFrom]
    · intro target htg
      rw [firstToReachFrom_append_none _ _ _ _ (hnone target (by omega)), ← H8]
      simp only [firstToReachFrom]
      rw [if_neg (by omega)]
  · have hc : coreStep t u = (statsUpd t.1 u, t.2.1, t.2.2) := by
      simp [coreStep, hif]
    rw [hc]
    have hbp0 : 0 ≤ t.2.2 := by
      rcases H0 with hbp | hbp
      · omega
      · exact hbp
    obtain ⟨hb1, hb2⟩ := H5 hbp0
    refine ⟨hH1, ?_, Or.inr hbp0, ?_, ?_, ?_, hfold⟩ <;> dsimp only
    · intro c
      by_cases hcu : c = u.coord
      · subst hcu; omega
      · rw [statsUpd_other t.1 u c hcu]
        exact H2 c
    · intro habs
      omega
    · intro _
      refine ⟨?_, firstToReachFrom_append_some _ _ _ _ _ hb2⟩
      by_cases hcu : t.2.1 = u.coord
      · rw [hcu] at hb1 ⊢
        rw [hsnap]
        omega
      · rw [statsUpd_other t.1 u t.2.1 hcu]
        exact hb1
    · intro target htg
      rw [firstToReachFrom_append_none _ _ _ _ (H6 target htg), ← H8]
      simp only [firstToReachFrom]
      rw [if_neg (by omega)]

theorem coreInv_init : CoreInv [] initCore := by
  refine ⟨fun c => le_refl 0, fun c => ?_, Or.inl rfl, fun _ => ⟨rfl, rfl⟩,
    fun hb => absurd hb (by norm_num [initCore]), fun target ht => rfl, rfl⟩
  show (0 : Int) ≤ max (-1) 0
  omega

theorem coreInv_holds (us : List RLine) (hn : ∀ u ∈ us, 0 ≤ u.playouts) :
    CoreInv us (us.foldl coreStep initCore) := by
  induction us using List.reverseRecOn with
  | nil => exact coreInv_init
  | append_singleton xs x ih =>
    simp only [List.foldl_append, List.foldl_cons, List.foldl_nil]
    exact coreInv_step xs _ x (hn x (by simp)) (ih (fun y hy => hn y (by simp [hy])))

theorem c2_aux (replies : List Reply)
    (hnn : ∀ u ∈ updates replies, 0 ≤ u.playouts) :
    (∀ c : Int, ((select_best_move replies).stats c).playouts
        ≤ ((select_best_move replies).stats (select_best_move replies).best_move).playouts) ∧
    ((select_best_move replies).best_move
        = (firstToReachFrom initStats
            ((select_best_move replies).stats (select_best_move replies).best_move).playouts
            (updates replies)).getD pass) := by
  obtain ⟨e1, e2, e3⟩ := select_core replies
  obtain ⟨H1, H2, H0, H3, H5, H6, H8⟩ := coreInv_holds (updates replies) hnn
  rcases H0 with hbp | hbp
  · obtain ⟨hus, hpass⟩ := H3 hbp
    have hst : ((updates replies).foldl coreStep initCore).1 = initStats := by
      rw [H8, hus]
      rfl
    constructor
    · intro c
      rw [e1, hst]
      exact le_refl 0
    · rw [e1, e2, hpass, hus]
      rfl
  · obtain ⟨hb1, hb2⟩ := H5 hbp
    constructor
    · intro c
      rw [e1, e2, hb1]
      have := H2 c
      omega
    · rw [e1, e2, hb1, hb2]
      rfl

/-- **C2 amended**: provided every data line processed by the scan
carries a nonnegative playout count, select_best_move — which merges
each parsed line into its coordinate's accumulator by the
playout-weighted averaging of stats_add_result — selects a coordinate
whose aggregated playout count is maximal over all coordinates; the
selected coordinate is exactly the first one whose accumulated count
reached that maximum during the scan (the earliest contributor, the
documented tie-break, in either reply order); and permuting the
replies yields the same selected move whenever the maximal aggregate
is attained by a single coordinate. -/
theorem c2_select_best_move (replies : List Reply)
    (hnn : ∀ u ∈ updates replies, 0 ≤ u.playouts) :
    (∀ c : Int, ((select_best_move replies).stats c).playouts
        ≤ ((select_best_move replies).stats (select_best_move replies).best_move).playouts) ∧
    ((select_best_move replies).best_move
        = (firstToReachFrom initStats
            ((select_best_move replies).stats (select_best_move replies).best_move).playouts
            (updates replies)).getD pass) ∧
    (∀ rsp : List Reply, rsp.Perm replies →
      (∀ c : Int, c ≠ (select_best_move replies).best_move →
        ((select_best_move replies).stats c).playouts
          < ((select_best_move replies).stats (select_best_move replies).best_move).playouts) →
      (select_best_move rsp).best_move = (select_best_move replies).best_move) := by
  have hax := c2_aux replies hnn
  refine ⟨hax.1, hax.2, ?_⟩
  intro rsp hperm hstrict
  have hnnp : ∀ u ∈ updates rsp, 0 ≤ u.playouts :=
    fun u hu => hnn u ((updates_perm hperm).mem_iff.1 hu)
  have haxp := c2_aux rsp hnnp
  have hagg : ∀ c : Int, ((select_best_move rsp).stats c).playouts
      = ((select_best_move replies).stats c).playouts := by
    intro c
    obtain ⟨e1, _, _⟩ := select_core replies
    obtain ⟨f1, _, _⟩ := select_core rsp
    rw [e1, f1, foldl_coreStep_stats, foldl_coreStep_stats,
      foldl_statsUpd_playouts, foldl_statsUpd_playouts,
      aggPl_perm (updates_perm hperm) c]
  by_contra hne
  have h1 := haxp.1 (select_best_move replies).best_move
  rw [hagg, hagg] at h1
  have h2 := hstrict (select_best_move rsp).best_move hne
  omega

/-- Reply list for the C2 witness, the move-selection scenario of the
specification: slave A reports D4 1000 0.55 and Q16 500 0.60, slave B
reports D4 800 0.50 and Q4 900 0.70 (D4, Q16, Q4 as coordinates 0, 1,
2); D4 wins with aggregate 1800. -/
def c2demo : List Reply :=
  [⟨some (11, 1500, 4), [some ⟨0, 1000, 11/20⟩, some ⟨1, 500, 3/5⟩]⟩,
   ⟨some (11, 1700, 4), [some ⟨0, 800, 1/2⟩, some ⟨2, 900, 7/10⟩]⟩]

/-- Witness for C2 amended at the concrete reply list c2demo. -/
theorem c2_witness :
    ((select_best_move c2demo).stats 2).playouts
      ≤ ((select_best_move c2demo).stats (select_best_move c2demo).best_move).playouts ∧
    (select_best_move c2demo).best_move
      = (firstToReachFrom initStats
          ((select_best_move c2demo).stats (select_best_move c2demo).best_move).playouts
          (updates c2demo)).getD pass :=
  ⟨(c2_select_best_move c2demo (by decide)).1 2,
   (c2_select_best_move c2demo (by decide)).2.1⟩

/-! ## Command log and coordinator (distributed.c lines 266-380, 431-478)

The shared coordination state: gtp_cmds as the list of characters
written so far (the region from the buffer start through the end of
the tail command, where the terminating NUL sits), the offset of
gtp_cmd into it (none while gtp_cmd is NULL), the reply counter and
the reply strings.  The id helpers and command classifiers live in
distributed/distributed.h, which is not among the sources; they are
modelled from the specification. -/

/-- Modelled from the spec: DIST_GAMELEN (distributed.h is not under
src/), the radix that separates the move ordinal of a command id from
the nonce and reply-required flag packed above it; the maximum game
length. -/
def DIST_GAMELEN : Nat := 600

/-- Modelled from the spec: force_reply (distributed.h) yields an id
that requests a reply, setting the flag part above the ordinal. -/
def force_reply (id : Nat) : Nat := id + DIST_GAMELEN

/-- Modelled from the spec: prevent_reply (distributed.h) clears the
reply-required flag and nonce, leaving only the move ordinal. -/
def prevent_reply (id : Nat) : Nat := id % DIST_GAMELEN

/-- Whether an id requests a reply: its part above the ordinal is
non-zero. -/
def reply_required (id : Nat) : Prop := DIST_GAMELEN ≤ id

/-- Modelled from the spec: is_gamestart (distributed.h) recognizes
the game-start commands that reset the command history. -/
def is_gamestart (cmd : List Char) : Bool :=
  cmd == "clear_board".toList || cmd == "boardsize".toList

/-- Modelled from the spec: is_reset (distributed.h) recognizes the
commands whose move ordinal restarts at 0. -/
def is_reset (cmd : List Char) : Bool := is_gamestart cmd

/-- The shared coordination state guarded by slave_lock. -/
structure Shared where
  log : List Char
  tail : Option Nat
  reply_count : Nat
  replies : List (List Char)
deriving DecidableEq, Repr

/-- Embedding of update_cmd: snprintf overwrites the buffer from the
tail offset with "<id> <cmd> <args>", args standing in for "\n" when
empty, and the reply counter is reset.  The id is
force_reply(moves + nonce * DIST_GAMELEN) with moves = 0 for reset
commands; the C do-while reroll that guarantees id != previous id only
chooses the nonce, a parameter here.  The assert(gtp_cmd) case is the
none branch. -/
def update_cmd (b_moves nonce : Nat) (cmd args : List Char) (st : Shared) : Shared :=
  match st.tail with
  | none => st
  | some t =>
    let moves := if is_reset cmd then 0 else b_moves
    let id := force_reply (moves + nonce * DIST_GAMELEN)
    { st with
      log := st.log.take t
        ++ decRepr id ++ ' ' :: (cmd ++ ' ' :: (if args.isEmpty then ['\n'] else args)),
      reply_count := 0 }

/-- The in-place tail-id rewrite and tail advance of
distributed_notify: id = prevent_reply(atoi(gtp_cmd)); len =
strspn(gtp_cmd, "0123456789"); snprintf(buf, ..., "%0*d", len, id);
memcpy(gtp_cmd, buf, len); gtp_cmd += strlen(gtp_cmd). -/
def advance_tail (st : Shared) : Shared :=
  match st.tail with
  | none => st
  | some t =>
    let cmdstr := st.log.drop t
    let len := digitSpan cmdstr
    let id := prevent_reply (atoiDigits cmdstr)
    let log2 := st.log.take t ++ padTrunc len (decRepr id) ++ st.log.drop (t + len)
    { st with log := log2, tail := some log2.length }

/-- The four commands distributed_notify intercepts before touching
any shared state. -/
def filtered (slaves_quit : Bool) (cmd : List Char) : Bool :=
  (strcaseEq cmd "quit".toList && !slaves_quit)
    || strcaseEq cmd "uct_genbook".toList
    || strcaseEq cmd "uct_dumpbook".toList
    || strcaseEq cmd "kgs-chat".toList

/-- The command-name translation applied before broadcast. -/
def translate_cmd (cmd : List Char) : List Char :=
  if strcaseEq cmd "genmove".toList then "pachi-genmoves".toList
  else if strcaseEq cmd "kgs-genmove_cleanup".toList then "pachi-genmoves_cleanup".toList
  else if strcaseEq cmd "final_score".toList then "final_status_list".toList
  else cmd

/-- The gtp-layer parse codes; distributed_notify always answers
P_OK. -/
inductive ParseCode
  | P_OK
  | P_NOREPLY
  | P_DONE_OK
deriving DecidableEq, Repr

/-- Result of distributed_notify: the parse code, the shared state
after return, whether cmd_cond was broadcast (workers woken), and
whether get_replies(0) was called before returning. -/
structure NotifyOut where
  code : ParseCode
  st : Shared
  broadcast : Bool
  waited : Bool
deriving DecidableEq, Repr

/-- Embedding of distributed_notify: intercept the filtered commands;
otherwise reset the tail to the buffer start on the first command or a
game start, or rewrite the tail id in place and advance past the tail
command; translate the command name; install the new command with
update_cmd; broadcast cmd_cond; and call get_replies(0) unless the
command is completed later by genmove or dead_group_list. -/
def distributed_notify (slaves_quit : Bool) (cmd args : List Char)
    (b_moves nonce : Nat) (st : Shared) : NotifyOut :=
  if filtered slaves_quit cmd then ⟨ParseCode.P_OK, st, false, false⟩
  else
    let st1 := if st.tail.isNone || is_gamestart cmd
      then { st with tail := some 0 } else advance_tail st
    let cmd2 := translate_cmd cmd
    let st2 := update_cmd b_moves nonce cmd2 args st1
    let wait := !(strcaseEq cmd2 "pachi-genmoves".toList
        || strcaseEq cmd2 "pachi-genmoves_cleanup".toList
        || strcaseEq cmd2 "final_status_list".toList)
    ⟨ParseCode.P_OK, st2, true, wait⟩

/-- The command-log mutation of distributed_genmove: after the move is
selected, snprintf(args, ..., "%s %s\n", stone2str(color), coord) and
update_cmd(b, "play", args) — invoked with the tail offset unchanged,
so it writes at the position still holding the pachi-genmoves
command. -/
def genmove_log_update (b_moves nonce : Nat) (color coordStr : List Char)
    (st : Shared) : Shared :=
  update_cmd b_moves nonce "play".toList (color ++ ' ' :: (coordStr ++ ['\n'])) st

/-- **C8**: for quit while slaves_quit is false, and for uct_genbook,
uct_dumpbook and kgs-chat, distributed_notify returns P_OK at once
with the whole shared coordination state untouched — command buffer,
tail offset, reply_count and reply buffer unchanged — no broadcast of
the command condition (no worker woken) and no wait. -/
theorem c8_notify_filtered (slaves_quit : Bool) (cmd args : List Char)
    (b_moves nonce : Nat) (st : Shared)
    (h : (cmd = "quit".toList ∧ slaves_quit = false)
       ∨ cmd = "uct_genbook".toList ∨ cmd = "uct_dumpbook".toList
       ∨ cmd = "kgs-chat".toList) :
    distributed_notify slaves_quit cmd args b_moves nonce st
      = ⟨ParseCode.P_OK, st, false, false⟩ := by
  have hf : filtered slaves_quit cmd = true := by
    rcases h with ⟨rfl, rfl⟩ | rfl | rfl | rfl
    · decide
    all_goals cases slaves_quit <;> decide
  unfold distributed_notify
  rw [if_pos hf]

/-- Witness for C8: a concrete quit with slaves_quit = 0 on a concrete
mid-game state. -/
theorem c8_witness :
    distributed_notify false "quit".toList [] 5 3
        ⟨"1 boardsize 9\n".toList, some 0, 2, ["= ok\n".toList]⟩
      = ⟨ParseCode.P_OK, ⟨"1 boardsize 9\n".toList, some 0, 2, ["= ok\n".toList]⟩,
          false, false⟩ :=
  c8_notify_filtered false "quit".toList [] 5 3
    ⟨"1 boardsize 9\n".toList, some 0, 2, ["= ok\n".toList]⟩ (Or.inl ⟨rfl, rfl⟩)

/-- **C3 counterexample**: a log holding "0 clear_board\n" followed by
the broadcast "1205 pachi-genmoves b\n" at the tail (offset 14).  The
genmove follow-up play does not leave the pachi-genmoves command in
the log with only its id flag rewritten: it replaces it wholesale, and
the string "pachi-genmoves", present before, occurs nowhere in the log
afterwards. -/
theorem c3_counterexample :
    (genmove_log_update 2 1 "b".toList "D4".toList
        ⟨"0 clear_board\n1205 pachi-genmoves b\n".toList, some 14, 3, []⟩).log
      = "0 clear_board\n1202 play b D4\n".toList ∧
    containsSub "pachi-genmoves".toList
        "0 clear_board\n1205 pachi-genmoves b\n".toList = true ∧
    containsSub "pachi-genmoves".toList
      (genmove_log_update 2 1 "b".toList "D4".toList
        ⟨"0 clear_board\n1205 pachi-genmoves b\n".toList, some 14, 3, []⟩).log = false := by
  refine ⟨?_, ?_, ?_⟩ <;> decide

/-- Concrete mid-game state for the C3 theorems: history
"0 clear_board\n" followed by the broadcast pachi-genmoves at
tail offset 14. -/
def c3demoState : Shared :=
  ⟨"0 clear_board\n1205 pachi-genmoves b\n".toList, some 14, 3, []⟩

/-- **C3 amended**: the follow-up play command does not extend the
history after the pachi-genmoves command; it replaces it.
distributed_genmove calls update_cmd with the tail offset unchanged,
so the buffer from the tail offset on is overwritten with
"<id> play <color> <coord>\n" while the log before the tail offset,
the tail offset itself, and nothing else of the history change (the
reply counter is reset for the new command). -/
theorem c3_play_replaces_genmoves (b_moves nonce : Nat) (color coordStr : List Char)
    (st : Shared) (t : Nat) (ht : st.tail = some t) (hle : t ≤ st.log.length) :
    (genmove_log_update b_moves nonce color coordStr st).log
      = st.log.take t ++ decRepr (force_reply (b_moves + nonce * DIST_GAMELEN))
          ++ ' ' :: ("play".toList ++ ' ' :: (color ++ ' ' :: (coordStr ++ ['\n']))) ∧
    (genmove_log_update b_moves nonce color coordStr st).log.take t = st.log.take t ∧
    (genmove_log_update b_moves nonce color coordStr st).tail = some t ∧
    (genmove_log_update b_moves nonce color coordStr st).reply_count = 0 := by
  have hne : (color ++ ' ' :: (coordStr ++ ['\n'])).isEmpty = false := by
    cases color <;> rfl
  have hstep : update_cmd b_moves nonce "play".toList
      (color ++ ' ' :: (coordStr ++ ['\n'])) st = { st with
      log := st.log.take t
        ++ decRepr (force_reply ((if is_reset "play".toList then 0 else b_moves)
            + nonce * DIST_GAMELEN))
        ++ ' ' :: ("play".toList ++ ' '
            :: (if (color ++ ' ' :: (coordStr ++ ['\n'])).isEmpty then ['\n']
                else color ++ ' ' :: (coordStr ++ ['\n']))),
      reply_count := 0 } := by
    unfold update_cmd
    rw [ht]
  rw [if_neg (by decide : ¬ is_reset "play".toList = true), hne] at hstep
  rw [if_neg (by simp : ¬ false = true)] at hstep
  have hg : genmove_log_update b_moves nonce color coordStr st = { st with
      log := st.log.take t ++ decRepr (force_reply (b_moves + nonce * DIST_GAMELEN))
          ++ ' ' :: ("play".toList ++ ' ' :: (color ++ ' ' :: (coordStr ++ ['\n']))),
      reply_count := 0 } := hstep
  rw [hg]
  have hlen : (st.log.take t).length = t := by
    rw [List.length_take]
    omega
  dsimp only
  refine ⟨rfl, ?_, ht, rfl⟩
  rw [List.append_assoc]
  exact List.take_left' hlen

/-- Witness for C3 amended at the concrete state c3demoState. -/
theorem c3_witness :
    (genmove_log_update 2 1 "b".toList "D4".toList c3demoState).log
      = c3demoState.log.take 14 ++ decRepr (force_reply (2 + 1 * DIST_GAMELEN))
          ++ ' ' :: ("play".toList ++ ' ' :: ("b".toList ++ ' ' :: ("D4".toList ++ ['\n']))) ∧
    (genmove_log_update 2 1 "b".toList "D4".toList c3demoState).log.take 14
      = c3demoState.log.take 14 ∧
    (genmove_log_update 2 1 "b".toList "D4".toList c3demoState).tail = some 14 ∧
    (genmove_log_update 2 1 "b".toList "D4".toList c3demoState).reply_count = 0 :=
  c3_play_replaces_genmoves 2 1 "b".toList "D4".toList c3demoState 14 rfl (by decide)

/-! ## Structured view of the command log, for the id-flag invariant -/

theorem decReprCore_big : ∀ (n fuel : Nat) (acc : List Char), n < fuel →
    decReprCore fuel n acc = decRepr n ++ acc := by
  intro n
  induction n using Nat.strong_induction_on with
  | _ n ih =>
    intro fuel acc h
    match fuel, h with
    | f + 1, h =>
      rw [decReprCore]
      by_cases h10 : n < 10
      · rw [if_pos h10]
        show _ = decReprCore (n + 1) n [] ++ acc
        rw [decReprCore, if_pos h10]
        rfl
      · rw [if_neg h10]
        have hdlt : n / 10 < n := Nat.div_lt_self (by omega) (by omega)
        rw [ih _ hdlt _ _ (by omega)]
        show _ = decReprCore (n + 1) n [] ++ acc
        rw [decReprCore, if_neg h10, ih _ hdlt _ _ (by omega)]
        simp

theorem decRepr_eq (n : Nat) :
    decRepr n = if n < 10 then [decDigit n] else decRepr (n / 10) ++ [decDigit (n % 10)] := by
  show decReprCore (n + 1) n [] = _
  rw [decReprCore]
  by_cases h10 : n < 10
  · rw [if_pos h10, if_pos h10]
  · rw [if_neg h10, if_neg h10]
    exact decReprCore_big (n / 10) n _ (Nat.div_lt_self (by omega) (by omega))

theorem decRepr_ne_nil (n : Nat) : decRepr n ≠ [] := by
  rw [decRepr_eq]
  by_cases h : n < 10 <;> simp [h]

theorem isDig_decDigit (n : Nat) (h : n < 10) : isDig (decDigit n) = true := by
  interval_cases n <;> decide

theorem decDigit_toNat (n : Nat) (h : n < 10) : (decDigit n).toNat = 48 + n := by
  interval_cases n <;> decide

theorem decRepr_all_digits : ∀ n : Nat, ∀ x ∈ decRepr n, isDig x = true := by
  intro n
  induction n using Nat.strong_induction_on with
  | _ n ih =>
    intro x hx
    rw [decRepr_eq] at hx
    by_cases h : n < 10
    · rw [if_pos h] at hx
      simp only [List.mem_singleton] at hx
      subst hx
      exact isDig_decDigit n h
    · rw [if_neg h] at hx
      rcases List.mem_append.1 hx with h1 | h2
      · exact ih (n / 10) (Nat.div_lt_self (by omega) (by omega)) x h1
      · simp only [List.mem_singleton] at h2
        subst h2
        exact isDig_decDigit _ (Nat.mod_lt _ (by omega))

theorem digitVal_snoc (a : List Char) (c : Char) :
    digitVal (a ++ [c]) = 10 * digitVal a + (c.toNat - 48) := by
  simp [digitVal, List.foldl_append]

theorem digitVal_decRepr : ∀ n : Nat, digitVal (decRepr n) = n := by
  intro n
  induction n using Nat.strong_induction_on with
  | _ n ih =>
    rw [decRepr_eq]
    by_cases h : n < 10
    · rw [if_pos h]
      show 10 * 0 + ((decDigit n).toNat - 48) = n
      rw [decDigit_toNat n h]
      omega
    · rw [if_neg h, digitVal_snoc,
        ih (n / 10) (Nat.div_lt_self (by omega) (by omega)),
        decDigit_toNat _ (Nat.mod_lt _ (by omega))]
      omega

theorem decRepr_length_mono : ∀ n m : Nat, m ≤ n →
    (decRepr m).length ≤ (decRepr n).length := by
  intro n
  induction n using Nat.strong_induction_on with
  | _ n ih =>
    intro m hmn
    by_cases hm : m < 10
    · by_cases hn : n < 10
      · rw [decRepr_eq m, decRepr_eq n, if_pos hm, if_pos hn]
        simp
      · rw [decRepr_eq m, decRepr_eq n, if_pos hm, if_neg hn]
        have h1 : 0 < (decRepr (n / 10)).length := List.length_pos.2 (decRepr_ne_nil _)
        simp only [List.length_singleton, List.length_append]
        omega
    · have hn : ¬ n < 10 := by omega
      rw [decRepr_eq m, decRepr_eq n, if_neg hm, if_neg hn]
      simp only [List.length_append, List.length_singleton]
      have := ih (n / 10) (Nat.div_lt_self (by omega) (by omega)) (m / 10)
        (Nat.div_le_div_right hmn)
      omega

theorem padTrunc_eq (w : Nat) (ds : List Char) (h : ds.length ≤ w) :
    padTrunc w ds = List.replicate (w - ds.length) (decDigit 0) ++ ds := by
  unfold padTrunc
  apply List.take_of_length_le
  simp only [List.length_append, List.length_replicate]
  omega

theorem padTrunc_length (w : Nat) (ds : List Char) (h : ds.length ≤ w) :
    (padTrunc w ds).length = w := by
  rw [padTrunc_eq w ds h]
  simp only [List.length_append, List.length_replicate]
  omega

theorem padTrunc_self (ds : List Char) : padTrunc ds.length ds = ds := by
  rw [padTrunc_eq _ _ (le_refl _)]
  simp

theorem digitVal_cons_zero (l : List Char) : digitVal (decDigit 0 :: l) = digitVal l := by
  unfold digitVal
  rw [List.foldl_cons]
  congr 1

theorem digitVal_replicate_zero (k : Nat) (ds : List Char) :
    digitVal (List.replicate k (decDigit 0) ++ ds) = digitVal ds := by
  induction k with
  | zero => rfl
  | succ k ih =>
    rw [List.replicate_succ, List.cons_append, digitVal_cons_zero, ih]

theorem takeWhile_digit_field (dsf rest : List Char)
    (hd : ∀ x ∈ dsf, isDig x = true) (hr : rest.head? = some ' ') :
    (dsf ++ rest).takeWhile isDig = dsf := by
  induction dsf with
  | nil =>
    match rest, hr with
    | c :: rs, hr =>
      obtain rfl : c = ' ' := by
        simp only [List.head?_cons, Option.some.injEq] at hr
        exact hr
      rw [List.nil_append, List.takeWhile_cons]
      have hsp : isDig ' ' = false := by decide
      rw [hsp]
      rfl
  | cons d ds ih =>
    rw [List.cons_append, List.takeWhile_cons, hd d (by simp),
      ih (fun x hx => hd x (by simp [hx]))]
    rfl

/-- One command of the log in structured form: the id digit field (its
value and printed width) and the rest of the line, from the separating
space through the terminating newline. -/
structure CmdR where
  id : Nat
  width : Nat
  rest : List Char
deriving DecidableEq, Repr

/-- Byte rendering of one command: the id left-padded with zeros to
its field width, then the rest. -/
def renderCmd (c : CmdR) : List Char := padTrunc c.width (decRepr c.id) ++ c.rest

/-- Byte rendering of a command sequence. -/
def renderLog (cs : List CmdR) : List Char := (cs.map renderCmd).flatten

/-- Well-formedness of a structured command: the field is wide enough
for the id's digits, and the rest starts with the separating space,
ends with the newline, and has no interior newline. -/
def WFcmd (c : CmdR) : Prop :=
  (decRepr c.id).length ≤ c.width ∧
  c.rest.head? = some ' ' ∧
  c.rest.getLast? = some '\n' ∧
  ∀ x ∈ c.rest.dropLast, x ≠ '\n'

/-- The shared state renders the structured command list, with the
tail offset at the start of the last command. -/
def Represents (cs : List CmdR) (st : Shared) : Prop :=
  cs ≠ [] ∧ st.log = renderLog cs ∧
  st.tail = some (renderLog cs.dropLast).length ∧
  ∀ c ∈ cs, WFcmd c

/-- Exactly the command at the tail carries the reply-required flag. -/
def OneFlag (cs : List CmdR) : Prop :=
  (∀ c ∈ cs.dropLast, c.id < DIST_GAMELEN) ∧
  (∀ c ∈ cs.getLast?, DIST_GAMELEN ≤ c.id)

/-- The in-place rewrite of the tail command performed on append: same
width, same rest, id sent through prevent_reply. -/
def rewriteTail (c : CmdR) : CmdR := ⟨prevent_reply c.id, c.width, c.rest⟩

/-- The structured command update_cmd creates. -/
def newCmdR (b_moves nonce : Nat) (cmd args : List Char) : CmdR :=
  ⟨force_reply ((if is_reset cmd then 0 else b_moves) + nonce * DIST_GAMELEN),
   (decRepr (force_reply ((if is_reset cmd then 0 else b_moves)
      + nonce * DIST_GAMELEN))).length,
   ' ' :: (cmd ++ ' ' :: (if args.isEmpty then ['\n'] else args))⟩

theorem renderLog_append (a b : List CmdR) :
    renderLog (a ++ b) = renderLog a ++ renderLog b := by
  simp [renderLog]

theorem renderLog_concat (a : List CmdR) (c : CmdR) :
    renderLog (a ++ [c]) = renderLog a ++ renderCmd c := by
  rw [renderLog_append]
  simp [renderLog]

theorem renderCmd_length (c : CmdR) (h : (decRepr c.id).length ≤ c.width) :
    (renderCmd c).length = c.width + c.rest.length := by
  simp [renderCmd, List.length_append, padTrunc_length _ _ h]

theorem padTrunc_digits (w : Nat) (ds : List Char) (h : ds.length ≤ w)
    (hds : ∀ x ∈ ds, isDig x = true) : ∀ x ∈ padTrunc w ds, isDig x = true := by
  intro x hx
  rw [padTrunc_eq w ds h] at hx
  rcases List.mem_append.1 hx with h1 | h2
  · obtain rfl := List.eq_of_mem_replicate h1
    decide
  · exact hds x h2

theorem renderCmd_span (c : CmdR) (hw : (decRepr c.id).length ≤ c.width)
    (hh : c.rest.head? = some ' ') :
    (renderCmd c).takeWhile isDig = padTrunc c.width (decRepr c.id) :=
  takeWhile_digit_field _ _ (padTrunc_digits _ _ hw (decRepr_all_digits c.id)) hh

theorem renderCmd_digitSpan (c : CmdR) (hw : (decRepr c.id).length ≤ c.width)
    (hh : c.rest.head? = some ' ') : digitSpan (renderCmd c) = c.width := by
  unfold digitSpan
  rw [renderCmd_span c hw hh, padTrunc_length _ _ hw]

theorem renderCmd_atoi (c : CmdR) (hw : (decRepr c.id).length ≤ c.width)
    (hh : c.rest.head? = some ' ') : atoiDigits (renderCmd c) = c.id := by
  unfold atoiDigits
  rw [renderCmd_span c hw hh, padTrunc_eq _ _ hw, digitVal_replicate_zero, digitVal_decRepr]

theorem wf_line_of_body (body : List Char) (hb : ∀ x ∈ body, x ≠ '\n') :
    (body ++ ['\n']).getLast? = some '\n' ∧ ∀ x ∈ (body ++ ['\n']).dropLast, x ≠ '\n' := by
  refine ⟨List.getLast?_concat _, ?_⟩
  rw [List.dropLast_concat]
  exact hb

theorem advance_tail_repr (init : List CmdR) (lc : CmdR) (st : Shared)
    (hlog : st.log = renderLog (init ++ [lc]))
    (ht : st.tail = some (renderLog init).length)
    (hwf : WFcmd lc) :
    advance_tail st = { st with
      log := renderLog (init ++ [rewriteTail lc]),
      tail := some (renderLog (init ++ [rewriteTail lc])).length } := by
  obtain ⟨hw, hh, _, _⟩ := hwf
  have hdrop : st.log.drop (renderLog init).length = renderCmd lc := by
    rw [hlog, renderLog_concat]
    exact List.drop_left _ _
  have hspan : digitSpan (st.log.drop (renderLog init).length) = lc.width := by
    rw [hdrop]
    exact renderCmd_digitSpan lc hw hh
  have hatoi : atoiDigits (st.log.drop (renderLog init).length) = lc.id := by
    rw [hdrop]
    exact renderCmd_atoi lc hw hh
  have htake : st.log.take (renderLog init).length = renderLog init := by
    rw [hlog, renderLog_concat]
    exact List.take_left _ _
  have hdrop2 : st.log.drop ((renderLog init).length + lc.width) = lc.rest := by
    rw [← List.drop_drop, hdrop]
    show (padTrunc lc.width (decRepr lc.id) ++ lc.rest).drop lc.width = lc.rest
    exact List.drop_left' (padTrunc_length _ _ hw)
  have hrender : renderLog init ++ padTrunc lc.width (decRepr (prevent_reply lc.id)) ++ lc.rest
      = renderLog (init ++ [rewriteTail lc]) := by
    rw [renderLog_concat, List.append_assoc]
    rfl
  unfold advance_tail
  rw [ht]
  dsimp only
  rw [hspan, hatoi, htake, hdrop2, hrender]

theorem update_cmd_repr (b_moves nonce : Nat) (cmd args : List Char) (cs : List CmdR)
    (st : Shared) (hlog : st.log = renderLog cs) (ht : st.tail = some st.log.length) :
    update_cmd b_moves nonce cmd args st = { st with
      log := renderLog (cs ++ [newCmdR b_moves nonce cmd args]),
      reply_count := 0 } := by
  have hfield : st.log.take st.log.length
      ++ decRepr (force_reply ((if is_reset cmd then 0 else b_moves) + nonce * DIST_GAMELEN))
      ++ ' ' :: (cmd ++ ' ' :: (if args.isEmpty then ['\n'] else args))
      = renderLog (cs ++ [newCmdR b_moves nonce cmd args]) := by
    rw [List.take_length, hlog, renderLog_concat, List.append_assoc]
    congr 1
    show decRepr (force_reply ((if is_reset cmd then 0 else b_moves) + nonce * DIST_GAMELEN))
        ++ ' ' :: (cmd ++ ' ' :: (if args.isEmpty then ['\n'] else args))
      = padTrunc (decRepr (force_reply ((if is_reset cmd then 0 else b_moves)
            + nonce * DIST_GAMELEN))).length
          (decRepr (force_reply ((if is_reset cmd then 0 else b_moves) + nonce * DIST_GAMELEN)))
        ++ ' ' :: (cmd ++ ' ' :: (if args.isEmpty then ['\n'] else args))
    rw [padTrunc_self]
  unfold update_cmd
  rw [ht]
  dsimp only
  rw [hfield]

/-- **C6**: across the append performed by distributed_notify on a
mid-game command, the log keeps the invariant that exactly one command
carries the reply-required flag, namely the one at the tail: the
previously-tail command's id is rewritten in place via prevent_reply
as a zero-padded decimal of exactly its old byte width — its rendering
keeps its length, so no buffer offset changes across the in-place
rewrite — its flag is now clear, and the freshly appended tail command
is the only one whose id requests a reply. -/
theorem c6_tail_flag_invariant (init : List CmdR) (lc : CmdR) (st : Shared)
    (cmd args : List Char) (b_moves nonce : Nat) (slaves_quit : Bool)
    (hrep : Represents (init ++ [lc]) st)
    (hflag : OneFlag (init ++ [lc]))
    (hfil : filtered slaves_quit cmd = false)
    (hgs : is_gamestart cmd = false)
    (hcmd : ∀ x ∈ translate_cmd cmd, x ≠ '\n')
    (hargs : args = [] ∨ ∃ abody, args = abody ++ ['\n'] ∧ ∀ x ∈ abody, x ≠ '\n') :
    Represents ((init ++ [rewriteTail lc]) ++ [newCmdR b_moves nonce (translate_cmd cmd) args])
        (distributed_notify slaves_quit cmd args b_moves nonce st).st ∧
    OneFlag ((init ++ [rewriteTail lc]) ++ [newCmdR b_moves nonce (translate_cmd cmd) args]) ∧
    (renderCmd (rewriteTail lc)).length = (renderCmd lc).length ∧
    (rewriteTail lc).width = lc.width ∧
    reply_required (newCmdR b_moves nonce (translate_cmd cmd) args).id ∧
    ¬ reply_required (rewriteTail lc).id := by
  obtain ⟨hne, hlog, ht, hwf⟩ := hrep
  have hwlc : WFcmd lc := hwf lc (by simp)
  have hD : 0 < DIST_GAMELEN := by decide
  have ht2 : st.tail = some (renderLog init).length := by
    rw [ht, List.dropLast_concat]
  have hadv := advance_tail_repr init lc st hlog ht2 hwlc
  have hlog1 : (advance_tail st).log = renderLog (init ++ [rewriteTail lc]) := by
    rw [hadv]
  have ht1 : (advance_tail st).tail = some (advance_tail st).log.length := by
    rw [hadv]
  have hupd := update_cmd_repr b_moves nonce (translate_cmd cmd) args
    (init ++ [rewriteTail lc]) (advance_tail st) hlog1 ht1
  have hcond : (st.tail.isNone || is_gamestart cmd) = false := by
    rw [ht, hgs]
    rfl
  have hnotify : (distributed_notify slaves_quit cmd args b_moves nonce st).st
      = update_cmd b_moves nonce (translate_cmd cmd) args (advance_tail st) := by
    unfold distributed_notify
    rw [if_neg (show ¬ filtered slaves_quit cmd = true by rw [hfil]; simp)]
    dsimp only
    rw [hcond]
    rfl
  have hmono : (decRepr (prevent_reply lc.id)).length ≤ lc.width :=
    le_trans (decRepr_length_mono lc.id (prevent_reply lc.id) (Nat.mod_le _ _)) hwlc.1
  refine ⟨?_, ⟨?_, ?_⟩, ?_, rfl, ?_, ?_⟩
  · -- Represents
    rw [hnotify, hupd]
    refine ⟨by simp, rfl, ?_, ?_⟩
    · show (advance_tail st).tail = _
      rw [hadv, List.dropLast_concat]
    · intro c hc
      rcases List.mem_append.1 hc with h1 | h2
      · rcases List.mem_append.1 h1 with h3 | h4
        · exact hwf c (List.mem_append_left _ h3)
        · simp only [List.mem_singleton] at h4
          subst h4
          exact ⟨hmono, hwlc.2.1, hwlc.2.2.1, hwlc.2.2.2⟩
      · simp only [List.mem_singleton] at h2
        subst h2
        refine ⟨le_refl _, rfl, ?_⟩
        rcases hargs with rfl | ⟨abody, rfl, hab⟩
        · have hrw : (newCmdR b_moves nonce (translate_cmd cmd) []).rest
              = (' ' :: (translate_cmd cmd ++ [' '])) ++ ['\n'] := by
            simp [newCmdR]
          rw [hrw]
          refine wf_line_of_body _ ?_
          intro x hx
          have hsp : (' ' : Char) ≠ '\n' := by decide
          rcases List.mem_cons.1 hx with rfl | hx2
          · exact hsp
          rcases List.mem_append.1 hx2 with hx3 | hx4
          · exact hcmd x hx3
          simp only [List.mem_singleton] at hx4
          subst hx4
          exact hsp
        · have hemp : (abody ++ ['\n']).isEmpty = false := by
            cases abody <;> rfl
          have hrw : (newCmdR b_moves nonce (translate_cmd cmd) (abody ++ ['\n'])).rest
              = (' ' :: (translate_cmd cmd ++ ' ' :: abody)) ++ ['\n'] := by
            simp [newCmdR, hemp]
          rw [hrw]
          refine wf_line_of_body _ ?_
          intro x hx
          have hsp : (' ' : Char) ≠ '\n' := by decide
          rcases List.mem_cons.1 hx with rfl | hx2
          · exact hsp
          rcases List.mem_append.1 hx2 with hx3 | hx4
          · exact hcmd x hx3
          rcases List.mem_cons.1 hx4 with rfl | hx5
          · exact hsp
          exact hab x hx5
  · -- flags of the non-tail commands
    intro c hc
    rw [List.dropLast_concat] at hc
    rcases List.mem_append.1 hc with h1 | h2
    · refine hflag.1 c ?_
      rw [List.dropLast_concat]
      exact h1
    · simp only [List.mem_singleton] at h2
      subst h2
      show prevent_reply lc.id < DIST_GAMELEN
      exact Nat.mod_lt _ hD
  · -- flag of the tail
    intro c hc
    rw [List.getLast?_concat] at hc
    simp only [Option.mem_def, Option.some.injEq] at hc
    subst hc
    show DIST_GAMELEN ≤ _ + DIST_GAMELEN
    exact Nat.le_add_left _ _
  · -- width preservation of the rendering
    rw [renderCmd_length lc hwlc.1]
    exact renderCmd_length (rewriteTail lc) hmono
  · -- new command requests a reply
    show DIST_GAMELEN ≤ _ + DIST_GAMELEN
    exact Nat.le_add_left _ _
  · -- rewritten command does not
    show ¬ DIST_GAMELEN ≤ lc.id % DIST_GAMELEN
    have := Nat.mod_lt lc.id hD
    omega

/-- Structured history for the C6 witness: one game-start command. -/
def c6init : List CmdR := [⟨1, 1, " clear_board\n".toList⟩]

/-- Tail command for the C6 witness: a play with its flag set. -/
def c6lc : CmdR := ⟨605, 3, " play b D4\n".toList⟩

/-- Concrete shared state rendering c6init ++ [c6lc]. -/
def c6state : Shared := ⟨"1 clear_board\n605 play b D4\n".toList, some 14, 0, []⟩

/-- Witness for C6: a concrete genmove append on a two-command log. -/
theorem c6_witness :
    Represents ((c6init ++ [rewriteTail c6lc])
        ++ [newCmdR 7 2 (translate_cmd "genmove".toList) "b\n".toList])
      (distributed_notify false "genmove".toList "b\n".toList 7 2 c6state).st ∧
    OneFlag ((c6init ++ [rewriteTail c6lc])
        ++ [newCmdR 7 2 (translate_cmd "genmove".toList) "b\n".toList]) ∧
    (renderCmd (rewriteTail c6lc)).length = (renderCmd c6lc).length ∧
    (rewriteTail c6lc).width = c6lc.width ∧
    reply_required (newCmdR 7 2 (translate_cmd "genmove".toList) "b\n".toList).id ∧
    ¬ reply_required (rewriteTail c6lc).id :=
  c6_tail_flag_invariant c6init c6lc c6state "genmove".toList "b\n".toList 7 2 false
    (by unfold Represents WFcmd; decide) (by unfold OneFlag; decide)
    (by decide) (by decide) (by decide)
    (Or.inr ⟨"b".toList, by decide, by decide⟩)

/-! ## Slave worker (distributed.c lines 156-264) -/

/-- Whether a line is one the reply-id scan accepts: it begins with =
or ? followed by a digit (lines 197-198). -/
def isIdLine (l : List Char) : Bool :=
  match l with
  | a :: b :: _ => (a == '=' || a == '?') && isDig b
  | _ => false

/-- The reply id set while reading the reply: reply_id stays -1 until
the first line beginning with = or ? followed by a digit, whose tail
is then parsed with atoi. -/
def parse_reply_id (lines : List (List Char)) : Int :=
  match lines.find? isIdLine with
  | some l => (atoiDigits (l.drop 1) : Int)
  | none => -1

/-- The first character of the concatenated reply buffer (*buf); none
stands for the NUL of an empty buffer. -/
def reply_first_char (lines : List (List Char)) : Option Char :=
  match lines with
  | [] => none
  | l :: _ => l.head?

/-- The claim's reading of the reply id, for comparison: an id parsed
from the reply's first line only. -/
def spec_first_line_id (lines : List (List Char)) : Int :=
  match lines with
  | l :: _ => if isIdLine l then (atoiDigits (l.drop 1) : Int) else -1
  | [] => -1

/-- Slave-worker iteration state: the id of the command last sent, the
reply id last seen, the resend flag, and whether to_send points at the
full history gtp_cmds rather than the tail command gtp_cmd. -/
structure SlaveSt where
  cmd_id : Int
  reply_id : Int
  resend : Bool
  to_send_full : Bool
deriving DecidableEq, Repr

/-- The wait guard at the top of a slave_loop iteration (line 168):
the worker blocks on the command condition while cmd_id == reply_id
and no resend is pending. -/
def slave_waits (s : SlaveSt) : Bool := s.cmd_id == s.reply_id && !s.resend

/-- The post-receive classification of slave_loop (lines 202-216),
with the mutex retaken: the reply is appended to the Reply Buffer and
the reply condition signaled (result true) exactly when the parsed
reply id equals cmd_id and the buffer starts with =; otherwise
to_send is pointed at the full history and resend is set (result
false). -/
def slave_classify (s : SlaveSt) (lines : List (List Char)) : SlaveSt × Bool :=
  let rid := parse_reply_id lines
  if rid == s.cmd_id && (reply_first_char lines == some '=') then
    ({ s with reply_id := rid }, true)
  else
    ({ s with reply_id := rid, resend := true, to_send_full := true }, false)

/-- **C5 counterexample**: a reply whose first line "=x" carries no
id, followed by "=123 ok".  The id the code uses comes from the second
line — the first line beginning with = or ? and a digit — so with
cmd_id = 123 the reply is deposited, although the id parsed from the
reply's first line (the claim's reading) is not 123. -/
theorem c5_counterexample :
    (slave_classify ⟨123, -1, false, false⟩
        [['=', 'x', '\n'], "=123 ok\n".toList]).2 = true ∧
    spec_first_line_id [['=', 'x', '\n'], "=123 ok\n".toList] ≠ 123 ∧
    parse_reply_id [['=', 'x', '\n'], "=123 ok\n".toList] = 123 := by
  refine ⟨?_, ?_, ?_⟩ <;> decide

/-- **C5 amended**: the reply is appended to the Reply Buffer and the
reply-available condition signaled if and only if the reply id —
parsed from the first received line that begins with = or ? followed
by a digit — equals the id of the command this worker last sent and
the reply buffer's first character is =; in every other case the
worker sets its resend flag, points to_send at the full command
history, and its next iteration does not wait on the command-available
condition. -/
theorem c5_reply_classification (s : SlaveSt) (lines : List (List Char)) :
    ((slave_classify s lines).2 = true ↔
      parse_reply_id lines = s.cmd_id ∧ reply_first_char lines = some '=') ∧
    ((slave_classify s lines).2 = false →
      (slave_classify s lines).1.resend = true ∧
      (slave_classify s lines).1.to_send_full = true ∧
      slave_waits (slave_classify s lines).1 = false) := by
  by_cases hc : (parse_reply_id lines == s.cmd_id
      && (reply_first_char lines == some '=')) = true
  · have hp : parse_reply_id lines = s.cmd_id ∧ reply_first_char lines = some '=' := by
      simpa using hc
    constructor
    · simp [slave_classify, hc, hp]
    · intro hdep
      exact absurd hdep (by simp [slave_classify, hc])
  · constructor
    · constructor
      · intro hdep
        exact absurd hdep (by simp [slave_classify, hc])
      · intro hp
        exact absurd (by simp [hp.1, hp.2] : (parse_reply_id lines == s.cmd_id
            && (reply_first_char lines == some '=')) = true) hc
    · intro _
      simp [slave_classify, hc, slave_waits]

/-- Witness for C5 amended: a negative ack "?7 illegal move" to
command 7 triggers the resend path. -/
theorem c5_witness :
    (slave_classify ⟨7, -1, false, false⟩ ["?7 illegal move\n".toList]).1.resend = true ∧
    (slave_classify ⟨7, -1, false, false⟩
        ["?7 illegal move\n".toList]).1.to_send_full = true ∧
    slave_waits (slave_classify ⟨7, -1, false, false⟩
        ["?7 illegal move\n".toList]).1 = false :=
  (c5_reply_classification ⟨7, -1, false, false⟩ ["?7 illegal move\n".toList]).2 (by decide)

/-! ## Slave identity check (distributed.c lines 240-252) -/

/-- The identity handshake of slave_thread: after sending "name\n",
the first reply line must agree with "= Pachi" on 7 bytes
case-insensitively (a shorter line fails, its NUL mismatching), and
the next line must be exactly the blank terminator; a missing line
(EOF) fails either read. -/
def identity_ok (line1 line2 : Option (List Char)) : Bool :=
  match line1, line2 with
  | some l1, some l2 => strncaseEq 7 l1 "= Pachi".toList && l2 == ['\n']
  | _, _ => false

/-- The accept step of slave_thread around the identity check: on
success the worker increments active_slaves and enters slave_loop
(true); on failure it closes the connection and loops to accept the
next one, leaving the counter untouched (false). -/
def slave_accept (active : Nat) (line1 line2 : Option (List Char)) : Nat × Bool :=
  if identity_ok line1 line2 then (active + 1, true) else (active, false)

/-- Characterization of the identity handshake: it succeeds exactly
when the first line exists, its first 7 bytes lowercase to "= pachi",
and the second line is the blank terminator. -/
theorem identity_ok_iff (line1 line2 : Option (List Char)) :
    identity_ok line1 line2 = true ↔
      ∃ l1, line1 = some l1 ∧ (l1.take 7).map lowerc = "= pachi".toList ∧
        line2 = some ['\n'] := by
  have hpachi : ("= Pachi".toList.take 7).map lowerc = "= pachi".toList := by decide
  constructor
  · intro hid
    match line1, line2, hid with
    | some l1, some l2, hid =>
      unfold identity_ok strncaseEq at hid
      simp only [Bool.and_eq_true, beq_iff_eq] at hid
      exact ⟨l1, rfl, by rw [hid.1, hpachi], by rw [hid.2]⟩
    | some l1, none, hid => simp [identity_ok] at hid
    | none, l2, hid => simp [identity_ok] at hid
  · rintro ⟨l1, rfl, h2, rfl⟩
    unfold identity_ok strncaseEq
    simp only [Bool.and_eq_true, beq_iff_eq]
    exact ⟨by rw [h2, hpachi], by trivial⟩

/-- **C7**: a new slave connection is accepted — active_slaves
incremented and the service loop entered — exactly when the first
reply line to "name" begins, compared case-insensitively over its
first 7 bytes, with "= Pachi" and the following line is the blank
terminator; on any other response the counter is untouched and the
worker goes back to accepting connections. -/
theorem c7_identity_check (active : Nat) (line1 line2 : Option (List Char)) :
    ((slave_accept active line1 line2).2 = true ↔
      ∃ l1, line1 = some l1 ∧ (l1.take 7).map lowerc = "= pachi".toList ∧
        line2 = some ['\n']) ∧
    ((slave_accept active line1 line2).2 = false →
      (slave_accept active line1 line2).1 = active) ∧
    ((slave_accept active line1 line2).2 = true →
      (slave_accept active line1 line2).1 = active + 1) := by
  refine ⟨?_, ?_, ?_⟩
  · rw [← identity_ok_iff]
    unfold slave_accept
    by_cases hid : identity_ok line1 line2 = true <;> simp [hid]
  · intro hrej
    unfold slave_accept at hrej ⊢
    by_cases hid : identity_ok line1 line2 = true
    · rw [if_pos hid] at hrej
      simp at hrej
    · rw [if_neg hid]
  · intro hacc
    unfold slave_accept at hacc ⊢
    by_cases hid : identity_ok line1 line2 = true
    · rw [if_pos hid]
    · rw [if_neg hid] at hacc
      simp at hacc

/-- Witness for C7: "= PACHI UCT Engine" passes (case-insensitive),
and a GNU Go style banner is rejected without touching the counter. -/
theorem c7_witness :
    (slave_accept 5 (some "? unknown command\n".toList) (some ['\n'])).1 = 5 ∧
    (slave_accept 5 (some "= PACHI UCT Engine\n".toList) (some ['\n'])).1 = 6 :=
  ⟨(c7_identity_check 5 (some "? unknown command\n".toList) (some ['\n'])).2.1 (by decide),
   (c7_identity_check 5 (some "= PACHI UCT Engine\n".toList) (some ['\n'])).2.2 (by decide)⟩
